import Mathlib

/-!
Verification development for the doris-vectorized core: the packed
columnar string container (`ColumnString`), the tagged scalar value
(`Field`), and the MySQL result writer's two encoding paths
(`_add_one_row` and `_add_one_column`).

Shallow embedding conventions: byte buffers are `List Nat` (each entry a
byte value), `size_t` quantities are `Nat` (with explicit `% 2^64` where
C++ wraparound matters), machine integers carried by cells are `Int`,
IEEE doubles are carried as their 64-bit bit pattern (`Nat`), and
throwing / status-returning code is `Except`.
-/

deriving instance DecidableEq for Except

namespace DorisVec

/-! ## ColumnString (src/be/src/vec/columns/column_string.h)

`offsets` maps the i'th position to the offset one past the i'th
element's bytes; `chars` stores all the elements' bytes contiguously,
each element followed by a terminating zero byte.  `offsets[-1]` reads
the zeroed left padding of `PaddedPODArray`, i.e. it is 0. -/

structure ColumnString where
  offsets : List Nat
  chars : List Nat
  deriving Repr, DecidableEq

namespace ColumnString

/-- The empty column (`ColumnString() = default`). -/
def empty : ColumnString := ⟨[], []⟩

/-- `size()`: number of elements, the length of `offsets`. -/
def size (c : ColumnString) : Nat := c.offsets.length

/-- `offsetAt(i) = offsets[i-1]`; for `i = 0` this reads the zeroed
`-1`th padding slot of `PaddedPODArray`, hence 0. -/
def offsetAt (c : ColumnString) (i : Nat) : Nat :=
  if i = 0 then 0 else c.offsets.getD (i - 1) 0

/-- `sizeAt(i) = offsets[i] - offsets[i-1]`: byte size of the i'th
element including its terminating zero. -/
def sizeAt (c : ColumnString) (i : Nat) : Nat :=
  c.offsets.getD i 0 - c.offsetAt i

/-- `offsets.back() = offsets[size-1]`; reads the `-1`th padding slot
(0) when empty. -/
def lastOffset (c : ColumnString) : Nat :=
  c.offsets.getD (c.offsets.length - 1) 0

/-- `getDataAt(n)`: the bytes of element n, excluding the terminator
(`StringRef(&chars[offsetAt(n)], sizeAt(n) - 1)`). -/
def getDataAt (c : ColumnString) (n : Nat) : List Nat :=
  (c.chars.drop (c.offsetAt n)).take (c.sizeAt n - 1)

/-- `insert(x)`: append the string's bytes plus the terminating zero
byte, then push the new total chars size onto `offsets`. -/
def insert (c : ColumnString) (s : List Nat) : ColumnString :=
  { chars := c.chars ++ s ++ [0],
    offsets := c.offsets ++ [c.chars.length + (s.length + 1)] }

/-- `insertData(pos, length)`: append `length` bytes, write a zero
terminator after them, and push the new total chars size. -/
def insertData (c : ColumnString) (s : List Nat) : ColumnString :=
  { chars := c.chars ++ s ++ [0],
    offsets := c.offsets ++ [c.chars.length + (s.length + 1)] }

/-- `insertFrom(src, n)`: copy element n of `src` (bytes including its
terminator, `size_to_append = src.offsets[n] - src.offsets[n-1]`); the
one-byte case is the shortcut for the empty string. -/
def insertFrom (c : ColumnString) (src : ColumnString) (n : Nat) : ColumnString :=
  if src.offsets.getD n 0 - src.offsetAt n = 1 then
    { chars := c.chars ++ [0], offsets := c.offsets ++ [c.chars.length + 1] }
  else
    { chars := c.chars ++
        ((src.chars.drop (src.offsetAt n)).take (src.offsets.getD n 0 - src.offsetAt n)),
      offsets := c.offsets ++ [c.chars.length + (src.offsets.getD n 0 - src.offsetAt n)] }

/-- `insertDefault()`: push one zero byte and extend `offsets` by
`offsets.back() + 1`. -/
def insertDefault (c : ColumnString) : ColumnString :=
  { chars := c.chars ++ [0], offsets := c.offsets ++ [c.lastOffset + 1] }

/-- `popBack(n)`: truncate `chars` by the byte size
`nested_n = offsets.back() - offsetAt(offsets.size() - n)` of the last
n elements and truncate `offsets` by n (meaningful for `n ≤ size()`). -/
def popBack (c : ColumnString) (n : Nat) : ColumnString :=
  { chars := c.chars.take
      (c.chars.length - (c.lastOffset - c.offsetAt (c.offsets.length - n))),
    offsets := c.offsets.take (c.offsets.length - n) }

/-- The element count `popBack` passes to `offsets.resize_assume_reserved`,
with C++ `size_t` (mod `2^64`) subtraction made explicit. -/
def popBackRequestedOffsetsLen (c : ColumnString) (n : Nat) : Nat :=
  (c.offsets.length + 2 ^ 64 - n) % 2 ^ 64

/-- Representation invariant: `offsets` strictly increases step by step
starting from the conceptual `offsets[-1] = 0`, the last offset is the
total chars size, and the byte just before each element's end offset is
the zero terminator. -/
def wf (c : ColumnString) : Prop :=
  (∀ i, i < c.offsets.length → c.offsetAt i < c.offsets.getD i 0) ∧
  c.lastOffset = c.chars.length ∧
  (∀ i, i < c.offsets.length → c.chars.getD (c.offsets.getD i 0 - 1) 1 = 0)

instance (c : ColumnString) : Decidable (wf c) := by
  unfold wf; infer_instance

theorem wf_empty : wf empty := by
  refine ⟨?_, rfl, ?_⟩ <;> intro i h <;> simp [empty] at h

/-- All element-appending operations share this shape: extend `chars`
by the element's bytes (terminator included) and push the new total. -/
def appendElem (c : ColumnString) (blob : List Nat) : ColumnString :=
  { chars := c.chars ++ blob, offsets := c.offsets ++ [c.chars.length + blob.length] }

theorem insert_eq_appendElem (c : ColumnString) (s : List Nat) :
    c.insert s = c.appendElem (s ++ [0]) := by
  simp [insert, appendElem]

theorem insertData_eq_appendElem (c : ColumnString) (s : List Nat) :
    c.insertData s = c.appendElem (s ++ [0]) := by
  simp [insertData, appendElem]

theorem getD_lt_getD_succ {c : ColumnString} (h : wf c) {i : Nat}
    (hi : i + 1 < c.offsets.length) :
    c.offsets.getD i 0 < c.offsets.getD (i + 1) 0 := by
  have := h.1 (i + 1) hi
  simpa [offsetAt] using this

theorem getD_le_getD {c : ColumnString} (h : wf c) {i j : Nat}
    (hij : i ≤ j) (hj : j < c.offsets.length) :
    c.offsets.getD i 0 ≤ c.offsets.getD j 0 := by
  induction j with
  | zero => simp_all
  | succ k ih =>
    rcases Nat.lt_succ_iff_lt_or_eq.mp (Nat.lt_succ_of_le hij) with h' | h'
    · exact le_trans (ih (Nat.lt_succ_iff.mp h') (Nat.lt_of_succ_lt hj))
        (le_of_lt (getD_lt_getD_succ h hj))
    · exact le_of_eq (by rw [h'])

theorem getD_le_last {c : ColumnString} (h : wf c) {i : Nat}
    (hi : i < c.offsets.length) : c.offsets.getD i 0 ≤ c.lastOffset := by
  unfold lastOffset
  exact getD_le_getD h (Nat.le_sub_one_of_lt hi) (by omega)

theorem getD_pos {c : ColumnString} (h : wf c) {i : Nat}
    (hi : i < c.offsets.length) : 1 ≤ c.offsets.getD i 0 :=
  Nat.one_le_iff_ne_zero.mpr (Nat.pos_iff_ne_zero.mp (Nat.lt_of_le_of_lt (Nat.zero_le _) (h.1 i hi)))

theorem offsetAt_le_last {c : ColumnString} (h : wf c) {i : Nat}
    (hi : i ≤ c.offsets.length) : c.offsetAt i ≤ c.lastOffset := by
  unfold offsetAt
  split
  · exact Nat.zero_le _
  · rename_i h0
    rcases Nat.eq_zero_or_pos c.offsets.length with hl | hl
    · simp [lastOffset, List.getD, hl, List.length_eq_zero.mp hl]
    · exact getD_le_last h (by omega)

theorem size_appendElem (c : ColumnString) (blob : List Nat) :
    (c.appendElem blob).size = c.size + 1 := by
  simp [appendElem, size]

theorem getD_append_lt {l l' : List Nat} {i d : Nat} (h : i < l.length) :
    (l ++ l').getD i d = l.getD i d := by
  simp [List.getD, List.getElem?_append_left h]

theorem getD_append_self {l : List Nat} {x d : Nat} :
    (l ++ [x]).getD l.length d = x := by
  simp [List.getD, List.getElem?_append_right (le_refl l.length)]

theorem getD_append_right_add {l l' : List Nat} {k d : Nat} :
    (l ++ l').getD (l.length + k) d = l'.getD k d := by
  simp [List.getD, List.getElem?_append_right (Nat.le_add_right l.length k)]

theorem offsetAt_appendElem_lt {c : ColumnString} {blob : List Nat} {i : Nat}
    (hi : i ≤ c.offsets.length) :
    (c.appendElem blob).offsetAt i = c.offsetAt i := by
  unfold offsetAt appendElem
  split
  · rfl
  · rename_i h0
    simp only
    exact getD_append_lt (by omega)

theorem lastOffset_appendElem (c : ColumnString) (blob : List Nat) :
    (c.appendElem blob).lastOffset = c.chars.length + blob.length := by
  simp only [lastOffset, appendElem, List.length_append, List.length_singleton,
    Nat.add_sub_cancel]
  exact getD_append_self

theorem offsetAt_appendElem_size {c : ColumnString} (h : wf c) (blob : List Nat) :
    (c.appendElem blob).offsetAt c.size = c.chars.length := by
  show (c.appendElem blob).offsetAt c.offsets.length = c.chars.length
  rw [offsetAt_appendElem_lt (le_refl c.offsets.length)]
  unfold offsetAt
  split
  · rename_i h0
    have h2 := h.2.1
    simp [lastOffset, List.length_eq_zero.mp h0] at h2
    omega
  · rename_i h0
    have h2 := h.2.1
    simpa [lastOffset, eq_comm] using h2

theorem wf_appendElem {c : ColumnString} (h : wf c) {blob : List Nat}
    (hne : blob ≠ []) (hterm : blob.getD (blob.length - 1) 1 = 0) :
    wf (c.appendElem blob) := by
  have hlen : 1 ≤ blob.length := by
    cases blob with
    | nil => exact absurd rfl hne
    | cons a l => simp
  refine ⟨?_, ?_, ?_⟩
  · intro i hi
    simp only [appendElem, List.length_append, List.length_singleton] at hi
    rcases Nat.lt_succ_iff_lt_or_eq.mp hi with hi' | hi'
    · rw [offsetAt_appendElem_lt (le_of_lt hi')]
      show c.offsetAt i < (c.offsets ++ [c.chars.length + blob.length]).getD i 0
      rw [getD_append_lt hi']
      exact h.1 i hi'
    · subst hi'
      have hsz : (c.appendElem blob).offsetAt c.offsets.length = c.chars.length :=
        offsetAt_appendElem_size h blob
      rw [hsz]
      show c.chars.length < (c.offsets ++ [c.chars.length + blob.length]).getD c.offsets.length 0
      rw [getD_append_self]
      omega
  · rw [lastOffset_appendElem]
    simp [appendElem]
  · intro i hi
    simp only [appendElem, List.length_append, List.length_singleton] at hi
    rcases Nat.lt_succ_iff_lt_or_eq.mp hi with hi' | hi'
    · show (c.chars ++ blob).getD ((c.offsets ++ [c.chars.length + blob.length]).getD i 0 - 1) 1 = 0
      rw [getD_append_lt hi']
      have hub : c.offsets.getD i 0 ≤ c.chars.length := by
        have h1 := getD_le_last h hi'
        have h2 := h.2.1
        omega
      have hpos := getD_pos h hi'
      rw [getD_append_lt (by omega)]
      exact h.2.2 i hi'
    · subst hi'
      show (c.chars ++ blob).getD ((c.offsets ++ [c.chars.length + blob.length]).getD c.offsets.length 0 - 1) 1 = 0
      rw [getD_append_self]
      have he : c.chars.length + blob.length - 1 = c.chars.length + (blob.length - 1) := by omega
      rw [he, getD_append_right_add]
      exact hterm

theorem offsetAt_le_getD {c : ColumnString} (h : wf c) {i : Nat}
    (hi : i < c.offsets.length) : c.offsetAt i ≤ c.offsets.getD i 0 :=
  le_of_lt (h.1 i hi)

theorem getDataAt_appendElem_lt {c : ColumnString} (h : wf c) {i : Nat}
    (hi : i < c.size) (blob : List Nat) :
    (c.appendElem blob).getDataAt i = c.getDataAt i := by
  have hoff : (c.appendElem blob).offsetAt i = c.offsetAt i :=
    offsetAt_appendElem_lt (le_of_lt hi)
  have hsz : (c.appendElem blob).sizeAt i = c.sizeAt i := by
    unfold sizeAt
    rw [hoff]
    show (c.offsets ++ [c.chars.length + blob.length]).getD i 0 - c.offsetAt i = _
    rw [getD_append_lt hi]
  unfold getDataAt
  rw [hoff, hsz]
  have hob : c.offsetAt i ≤ c.chars.length := by
    have h1 := offsetAt_le_last h (le_of_lt hi)
    have h2 := h.2.1
    omega
  show ((c.chars ++ blob).drop (c.offsetAt i)).take (c.sizeAt i - 1) = _
  rw [List.drop_append_of_le_length hob]
  rw [List.take_append_of_le_length]
  have hub : c.offsets.getD i 0 ≤ c.chars.length := by
    have h1 := getD_le_last h hi
    have h2 := h.2.1
    omega
  have := h.1 i hi
  simp only [List.length_drop]
  unfold sizeAt
  omega

theorem getDataAt_appendElem_self {c : ColumnString} (h : wf c) (s : List Nat) :
    (c.appendElem (s ++ [0])).getDataAt c.size = s := by
  have hoff : (c.appendElem (s ++ [0])).offsetAt c.size = c.chars.length :=
    offsetAt_appendElem_size h (s ++ [0])
  have hsz : (c.appendElem (s ++ [0])).sizeAt c.size = s.length + 1 := by
    have e : (c.appendElem (s ++ [0])).offsets
        = c.offsets ++ [c.chars.length + (s.length + 1)] := by
      simp [appendElem]
    unfold sizeAt
    rw [hoff, e]
    show (c.offsets ++ [c.chars.length + (s.length + 1)]).getD c.offsets.length 0 -
        c.chars.length = s.length + 1
    rw [getD_append_self]
    omega
  unfold getDataAt
  rw [hoff, hsz]
  show ((c.chars ++ (s ++ [0])).drop c.chars.length).take (s.length + 1 - 1) = s
  rw [List.drop_append_of_le_length (le_refl _), List.drop_length]
  simp [List.take_append_of_le_length]

theorem size_insertData (c : ColumnString) (s : List Nat) :
    (c.insertData s).size = c.size + 1 := by
  rw [insertData_eq_appendElem]; exact size_appendElem c _

theorem wf_insertData {c : ColumnString} (h : wf c) (s : List Nat) :
    wf (c.insertData s) := by
  rw [insertData_eq_appendElem]
  refine wf_appendElem h (by simp) ?_
  simp [getD_append_self]

theorem wf_insert {c : ColumnString} (h : wf c) (s : List Nat) :
    wf (c.insert s) := by
  rw [insert_eq_appendElem]
  refine wf_appendElem h (by simp) ?_
  simp [getD_append_self]

theorem insertDefault_eq_appendElem {c : ColumnString} (h : wf c) :
    c.insertDefault = c.appendElem [0] := by
  unfold insertDefault appendElem
  have h2 := h.2.1
  simp only [lastOffset, List.getD, List.get?_eq_getElem?] at h2
  simp [lastOffset, List.getD, h2]

theorem wf_insertDefault {c : ColumnString} (h : wf c) :
    wf c.insertDefault := by
  rw [insertDefault_eq_appendElem h]
  exact wf_appendElem h (by simp) (by simp)

theorem getD_take_drop {l : List Nat} {o k i d : Nat} (hik : i < k)
    (_hoi : o + i < l.length) :
    ((l.drop o).take k).getD i d = l.getD (o + i) d := by
  simp [List.getD, List.getElem?_take_of_lt hik, List.getElem?_drop]

/-- The i'th element's stored slice of `src` (terminator included). -/
def elemSlice (src : ColumnString) (n : Nat) : List Nat :=
  (src.chars.drop (src.offsetAt n)).take (src.sizeAt n)

theorem elemSlice_length {src : ColumnString} (h : wf src) {n : Nat}
    (hn : n < src.size) : (src.elemSlice n).length = src.sizeAt n := by
  unfold elemSlice
  have h1 := h.1 n hn
  have h2 := getD_le_last h hn
  have h3 := h.2.1
  simp only [List.length_take, List.length_drop]
  unfold sizeAt
  omega

theorem elemSlice_last {src : ColumnString} (h : wf src) {n : Nat}
    (hn : n < src.size) :
    (src.elemSlice n).getD ((src.elemSlice n).length - 1) 1 = 0 := by
  rw [elemSlice_length h hn]
  unfold elemSlice
  have h1 := h.1 n hn
  have h2 := getD_le_last h hn
  have h3 := h.2.1
  have hsz : 1 ≤ src.sizeAt n := by unfold sizeAt; omega
  rw [getD_take_drop (by omega) (by unfold sizeAt; omega)]
  have he : src.offsetAt n + (src.sizeAt n - 1) = src.offsets.getD n 0 - 1 := by
    unfold sizeAt; omega
  rw [he]
  exact h.2.2 n hn

theorem insertFrom_eq_appendElem {c src : ColumnString} (hs : wf src) {n : Nat}
    (hn : n < src.size) :
    c.insertFrom src n = c.appendElem (src.elemSlice n) := by
  have hlen := elemSlice_length hs hn
  have hsz : src.offsets.getD n 0 - src.offsetAt n = src.sizeAt n := rfl
  by_cases h1 : src.sizeAt n = 1
  · have hl : (src.elemSlice n).length = 1 := by rw [hlen, h1]
    have hlast := elemSlice_last hs hn
    rw [hl] at hlast
    have hslice : src.elemSlice n = [0] := by
      cases he : src.elemSlice n with
      | nil => rw [he] at hl; simp at hl
      | cons a l =>
        rw [he] at hl hlast
        simp only [List.length_cons] at hl
        have hl0 : l = [] := List.length_eq_zero.mp (by omega)
        subst hl0
        simp [List.getD] at hlast
        rw [hlast]
    unfold insertFrom appendElem
    rw [hsz, if_pos h1, hslice]
    simp
  · unfold insertFrom appendElem
    rw [hsz, if_neg h1, hlen]
    rfl

theorem sizeAt_pos {c : ColumnString} (h : wf c) {n : Nat} (hn : n < c.size) :
    1 ≤ c.sizeAt n := by
  have := h.1 n hn
  unfold sizeAt
  omega

theorem wf_insertFrom {c src : ColumnString} (hc : wf c) (hs : wf src) {n : Nat}
    (hn : n < src.size) : wf (c.insertFrom src n) := by
  rw [insertFrom_eq_appendElem hs hn]
  refine wf_appendElem hc ?_ (elemSlice_last hs hn)
  intro he
  have h1 := elemSlice_length hs hn
  have h2 := sizeAt_pos hs hn
  rw [he] at h1
  simp at h1
  omega

theorem getD_take {l : List Nat} {m i d : Nat} (h : i < m) :
    (l.take m).getD i d = l.getD i d := by
  simp [List.getD, List.getElem?_take_of_lt h]

theorem offsetAt_le_chars {c : ColumnString} (h : wf c) {i : Nat}
    (hi : i ≤ c.offsets.length) : c.offsetAt i ≤ c.chars.length := by
  have h1 := offsetAt_le_last h hi
  have h2 := h.2.1
  omega

theorem popBack_chars_eq {c : ColumnString} (h : wf c) (n : Nat) :
    (c.popBack n).chars = c.chars.take (c.offsetAt (c.offsets.length - n)) := by
  have h1 := offsetAt_le_last h (Nat.sub_le c.offsets.length n)
  have h2 := h.2.1
  show c.chars.take
      (c.chars.length - (c.lastOffset - c.offsetAt (c.offsets.length - n))) = _
  have he : c.chars.length - (c.lastOffset - c.offsetAt (c.offsets.length - n))
      = c.offsetAt (c.offsets.length - n) := by omega
  rw [he]

theorem wf_popBack {c : ColumnString} (h : wf c) {n : Nat} (_hn : n ≤ c.size) :
    wf (c.popBack n) := by
  set m := c.offsets.length - n with hm
  have hml : m ≤ c.offsets.length := Nat.sub_le _ _
  have hcc := popBack_chars_eq h n
  have hclen : (c.popBack n).chars.length = c.offsetAt m := by
    rw [hcc]
    simp only [List.length_take]
    exact Nat.min_eq_left (offsetAt_le_chars h hml)
  have holen : (c.popBack n).offsets.length = m := by
    unfold popBack
    simp only [List.length_take]
    exact Nat.min_eq_left hml
  have hgetD : ∀ i, i < m → (c.popBack n).offsets.getD i 0 = c.offsets.getD i 0 := by
    intro i hi
    unfold popBack
    exact getD_take hi
  have hoff : ∀ i, i ≤ m → (c.popBack n).offsetAt i = c.offsetAt i := by
    intro i hi
    unfold offsetAt popBack
    split
    · rfl
    · exact getD_take (by omega)
  refine ⟨?_, ?_, ?_⟩
  · intro i hi
    rw [holen] at hi
    rw [hoff i (le_of_lt hi), hgetD i hi]
    exact h.1 i (by omega)
  · show (c.popBack n).lastOffset = (c.popBack n).chars.length
    unfold lastOffset
    rw [holen, hclen]
    rcases Nat.eq_zero_or_pos m with h0 | h0
    · have he : (c.popBack n).offsets = [] := by
        have := holen
        rw [h0] at this
        exact List.length_eq_zero.mp this
      rw [h0, he]
      simp [offsetAt]
    · have hgd := hgetD (m - 1) (by omega)
      rw [hgd]
      unfold offsetAt
      rw [if_neg (by omega)]
  · intro i hi
    rw [holen] at hi
    rw [hgetD i hi]
    have hub : c.offsets.getD i 0 ≤ c.offsetAt m := by
      have hstep : c.offsets.getD i 0 ≤ c.offsets.getD (m - 1) 0 :=
        getD_le_getD h (by omega) (by omega)
      unfold offsetAt
      rw [if_neg (by omega)]
      exact hstep
    have hpos := getD_pos h (by omega : i < c.offsets.length)
    have hlink : c.offsetAt (c.offsets.length - n) = c.offsetAt m := rfl
    rw [hcc, hlink, getD_take (by omega)]
    exact h.2.2 i (by omega)

theorem getDataAt_length {c : ColumnString} (h : wf c) {i : Nat} (hi : i < c.size) :
    (c.getDataAt i).length = c.sizeAt i - 1 := by
  unfold getDataAt
  simp only [List.length_take, List.length_drop]
  have h1 := h.1 i hi
  have h2 := getD_le_last h hi
  have h3 := h.2.1
  have h4 : c.offsetAt i ≤ c.chars.length := offsetAt_le_chars h (le_of_lt hi)
  unfold sizeAt
  omega

end ColumnString

/-! ## Sequences of insert / insertData calls (for claim C5) -/

/-- One call in a sequence of `insert`/`insertData` invocations; both
take the same byte payload (for `insert`, the `String` carried by the
`Field`). -/
inductive StrCall where
  | ins (s : List Nat)
  | insData (s : List Nat)
  deriving Repr, DecidableEq

/-- The byte payload passed to the call. -/
def StrCall.bytes : StrCall → List Nat
  | .ins s => s
  | .insData s => s

/-- Apply one call to a column. -/
def applyCall (c : ColumnString) : StrCall → ColumnString
  | .ins s => c.insert s
  | .insData s => c.insertData s

/-- Run a call sequence left to right. -/
def runCalls (c : ColumnString) (cs : List StrCall) : ColumnString :=
  cs.foldl applyCall c

theorem applyCall_eq_appendElem (c : ColumnString) (call : StrCall) :
    applyCall c call = c.appendElem (call.bytes ++ [0]) := by
  cases call with
  | ins s => exact ColumnString.insert_eq_appendElem c s
  | insData s => exact ColumnString.insertData_eq_appendElem c s

theorem wf_applyCall {c : ColumnString} (h : ColumnString.wf c) (call : StrCall) :
    ColumnString.wf (applyCall c call) := by
  rw [applyCall_eq_appendElem]
  refine ColumnString.wf_appendElem h (by simp) (by simp [ColumnString.getD_append_self])

theorem runCalls_spec {c : ColumnString} (h : ColumnString.wf c) (cs : List StrCall) :
    ColumnString.wf (runCalls c cs) ∧
    (runCalls c cs).size = c.size + cs.length ∧
    (∀ i, i < c.size → (runCalls c cs).getDataAt i = c.getDataAt i) ∧
    (∀ i, (hi : i < cs.length) → (runCalls c cs).getDataAt (c.size + i) = (cs[i]).bytes) := by
  induction cs generalizing c with
  | nil =>
    refine ⟨h, by simp [runCalls], fun i _ => rfl, fun i hi => by simp at hi⟩
  | cons call cs ih =>
    have hwf : ColumnString.wf (applyCall c call) := wf_applyCall h call
    have hsz : (applyCall c call).size = c.size + 1 := by
      rw [applyCall_eq_appendElem]
      exact ColumnString.size_appendElem c _
    have hrun : runCalls c (call :: cs) = runCalls (applyCall c call) cs := rfl
    obtain ⟨ih1, ih2, ih3, ih4⟩ := ih hwf
    refine ⟨by rw [hrun]; exact ih1, ?_, ?_, ?_⟩
    · rw [hrun, ih2, hsz]
      simp [Nat.add_assoc, Nat.add_comm 1 cs.length]
    · intro i hi
      rw [hrun, ih3 i (by omega)]
      rw [applyCall_eq_appendElem]
      exact ColumnString.getDataAt_appendElem_lt h hi _
    · intro i hi
      rw [hrun]
      cases i with
      | zero =>
        have : c.size + 0 < (applyCall c call).size := by omega
        rw [Nat.add_zero, ih3 c.size (by omega)]
        rw [applyCall_eq_appendElem]
        exact ColumnString.getDataAt_appendElem_self h call.bytes
      | succ j =>
        have he : c.size + (j + 1) = (applyCall c call).size + j := by omega
        rw [he, ih4 j (by simpa using Nat.lt_of_succ_lt_succ hi)]
        rfl

/-- C4: each of insert, insertData, insertFrom, insertDefault and
popBack preserves the representation invariant of `ColumnString`
(offsets non-decreasing — in fact strictly increasing step by step —
each element stored in `chars[offsets[i-1] .. offsets[i])` ending in the
zero terminator, last offset equal to the chars size); the logical
length of element i is `offsets[i] - offsets[i-1] - 1`.  `insertFrom`
requires a well-formed source with `n` in range, and `popBack` is
invoked within its contract `m ≤ size()`. -/
theorem claim_C4_wf_preservation (c src : ColumnString) (s : List Nat) (n m : Nat)
    (hc : ColumnString.wf c) :
    ColumnString.wf (c.insert s) ∧
    ColumnString.wf (c.insertData s) ∧
    ColumnString.wf c.insertDefault ∧
    (ColumnString.wf src → n < src.size → ColumnString.wf (c.insertFrom src n)) ∧
    (m ≤ c.size → ColumnString.wf (c.popBack m)) ∧
    (∀ i, i < c.size → (c.getDataAt i).length = c.sizeAt i - 1) :=
  ⟨ColumnString.wf_insert hc s,
   ColumnString.wf_insertData hc s,
   ColumnString.wf_insertDefault hc,
   fun hs hn => ColumnString.wf_insertFrom hc hs hn,
   fun hm => ColumnString.wf_popBack hc hm,
   fun _ hi => ColumnString.getDataAt_length hc hi⟩

/-- Witness for C4 at the concrete single-element column holding "h". -/
theorem claim_C4_wf_preservation_witness :
    ColumnString.wf ((ColumnString.empty.insertData [104]).insert [105]) ∧
    ColumnString.wf ((ColumnString.empty.insertData [104]).insertData [106]) ∧
    ColumnString.wf (ColumnString.empty.insertData [104]).insertDefault ∧
    ColumnString.wf ((ColumnString.empty.insertData [104]).insertFrom
      (ColumnString.empty.insertData [104]) 0) ∧
    ColumnString.wf ((ColumnString.empty.insertData [104]).popBack 1) ∧
    (((ColumnString.empty.insertData [104]).getDataAt 0).length =
      (ColumnString.empty.insertData [104]).sizeAt 0 - 1) := by
  have h := claim_C4_wf_preservation (ColumnString.empty.insertData [104])
    (ColumnString.empty.insertData [104]) [105] 0 1 (by decide)
  refine ⟨?_, ?_, h.2.2.1, h.2.2.2.1 (by decide) (by decide),
    h.2.2.2.2.1 (by decide), h.2.2.2.2.2 0 (by decide)⟩
  · exact h.1
  · exact (claim_C4_wf_preservation (ColumnString.empty.insertData [104])
      (ColumnString.empty.insertData [104]) [106] 0 1 (by decide)).2.1

/-- C5: for every sequence of insert/insertData calls starting from the
empty column, `size()` equals the number of calls and `getDataAt i`
returns exactly the bytes passed to the i'th call (terminator
excluded). -/
theorem claim_C5_insert_getDataAt (cs : List StrCall) :
    (runCalls ColumnString.empty cs).size = cs.length ∧
    ∀ i, (hi : i < cs.length) →
      (runCalls ColumnString.empty cs).getDataAt i = (cs[i]).bytes := by
  obtain ⟨-, h2, -, h4⟩ := runCalls_spec ColumnString.wf_empty cs
  refine ⟨by simpa [ColumnString.empty, ColumnString.size] using h2, ?_⟩
  intro i hi
  have := h4 i hi
  simpa [ColumnString.empty, ColumnString.size] using this

/-- Witness for C5 on the concrete call sequence
`insertData "hi"; insert ""; insertData "a"`. -/
theorem claim_C5_insert_getDataAt_witness :
    (runCalls ColumnString.empty
      [StrCall.insData [104, 105], StrCall.ins [], StrCall.insData [97]]).size = 3 ∧
    (runCalls ColumnString.empty
      [StrCall.insData [104, 105], StrCall.ins [], StrCall.insData [97]]).getDataAt 0
      = [104, 105] ∧
    (runCalls ColumnString.empty
      [StrCall.insData [104, 105], StrCall.ins [], StrCall.insData [97]]).getDataAt 1
      = [] := by
  have h := claim_C5_insert_getDataAt
    [StrCall.insData [104, 105], StrCall.ins [], StrCall.insData [97]]
  exact ⟨h.1, h.2 0 (by decide), h.2 1 (by decide)⟩

/-- C10: on every well-formed column, `insertDefault` coincides with
`insertData` of the empty byte string: it appends one present empty
element, growing `size()` by one, and `getDataAt` at the new last index
returns the empty byte string. -/
theorem claim_C10_insertDefault_empty (c : ColumnString) (h : ColumnString.wf c) :
    c.insertDefault = c.insertData [] ∧
    c.insertDefault.size = c.size + 1 ∧
    c.insertDefault.getDataAt c.size = [] := by
  have he : c.insertDefault = c.appendElem [0] :=
    ColumnString.insertDefault_eq_appendElem h
  have he2 : c.insertData [] = c.appendElem [0] := by
    rw [ColumnString.insertData_eq_appendElem]
    simp
  refine ⟨by rw [he, he2], ?_, ?_⟩
  · rw [he]
    exact ColumnString.size_appendElem c _
  · rw [he, show (c.appendElem [0]) = c.appendElem ([] ++ [0]) by simp]
    exact ColumnString.getDataAt_appendElem_self h []

/-- Witness for C10 at the concrete single-element column holding "h". -/
theorem claim_C10_insertDefault_empty_witness :
    (ColumnString.empty.insertData [104]).insertDefault
      = (ColumnString.empty.insertData [104]).insertData [] ∧
    (ColumnString.empty.insertData [104]).insertDefault.size
      = (ColumnString.empty.insertData [104]).size + 1 ∧
    (ColumnString.empty.insertData [104]).insertDefault.getDataAt
      (ColumnString.empty.insertData [104]).size = [] :=
  claim_C10_insertDefault_empty (ColumnString.empty.insertData [104]) (by decide)

/-- C7 (supporting facts): the spec's concrete scenario — inserting
"hello" and then `popBack(1)` yields an empty column with the chars
buffer back to its pre-insert length — holds; but for `n > size()`
(here a single-element column with `popBack(2)`) the code does not
fail: it hands `offsets.resize_assume_reserved` the wrapped-around
`size_t` count `2^64 - 1` (and reads `offsets[-2]`), undefined
behavior instead of an error. -/
theorem claim_C7_popBack_unchecked :
    ((ColumnString.empty.insert [104, 101, 108, 108, 111]).popBack 1).size = 0 ∧
    ((ColumnString.empty.insert [104, 101, 108, 108, 111]).popBack 1).chars.length = 0 ∧
    ColumnString.popBackRequestedOffsetsLen
      (ColumnString.empty.insert [104, 101, 108, 108, 111]) 2 = 2 ^ 64 - 1 := by
  refine ⟨by decide, by decide, ?_⟩
  decide

/-! ## Tagged scalar value `Field`
(field part of src/be/src/vec/columns/column_string.h)

`Field` is a discriminated union; we embed it as a sum type.  `UInt64`
and `UInt128` values are `Nat` (stored mod their width), `Int64`/`Int128`
are `Int`, `Float64` is carried as its IEEE-754 binary64 bit pattern,
`String` as a byte list, `Decimal<N>` as underlying integer value plus
scale, and `AggregateFunctionState` as its name/data strings.  Throwing
operators become `Except String`. -/

/-- `AggregateFunctionStateData`: name (with arguments) plus opaque
payload. -/
structure AggregateFunctionStateData where
  name : String
  data : String
  deriving Repr, DecidableEq

namespace AggregateFunctionStateData

/-- `operator<`: always throws. -/
def ltE (_ _ : AggregateFunctionStateData) : Except String Bool :=
  .error "Operator < is not implemented for AggregateFunctionStateData."

/-- `operator<=`: always throws. -/
def leE (_ _ : AggregateFunctionStateData) : Except String Bool :=
  .error "Operator <= is not implemented for AggregateFunctionStateData."

/-- `operator>`: always throws. -/
def gtE (_ _ : AggregateFunctionStateData) : Except String Bool :=
  .error "Operator > is not implemented for AggregateFunctionStateData."

/-- `operator>=`: always throws. -/
def geE (_ _ : AggregateFunctionStateData) : Except String Bool :=
  .error "Operator >= is not implemented for AggregateFunctionStateData."

/-- `operator==`: throws when the names differ, otherwise compares the
payloads. -/
def eqE (a b : AggregateFunctionStateData) : Except String Bool :=
  if a.name ≠ b.name then
    .error ("Comparing aggregate functions with different types: " ++ a.name ++
      " and " ++ b.name)
  else
    .ok (decide (a.data = b.data))

end AggregateFunctionStateData

/-- Modelled from the spec: `decimalLess` is only declared under src;
scale-aware rational comparison `x / 10^xs < y / 10^ys`. -/
def decimalLess (x y : Int) (xs ys : Nat) : Bool :=
  decide (x * 10 ^ ys < y * 10 ^ xs)

/-- Modelled from the spec: `decimalEqual` is only declared under src;
scale-aware rational equality `x / 10^xs = y / 10^ys`. -/
def decimalEqual (x y : Int) (xs ys : Nat) : Bool :=
  decide (x * 10 ^ ys = y * 10 ^ xs)

/-- The `Field::Types::Which` tag. -/
inductive WhichT where
  | null
  | uint64
  | int64
  | float64
  | uint128
  | int128
  | str
  | arr
  | tup
  | dec32
  | dec64
  | dec128
  | agg
  deriving Repr, DecidableEq, Fintype

/-- The numeric values of the `Which` enum in the source. -/
def whichNum : WhichT → Nat
  | .null => 0
  | .uint64 => 1
  | .int64 => 2
  | .float64 => 3
  | .uint128 => 4
  | .int128 => 5
  | .str => 16
  | .arr => 17
  | .tup => 18
  | .dec32 => 19
  | .dec64 => 20
  | .dec128 => 21
  | .agg => 22

/-- `Field::Types::toString`. -/
def whichName : WhichT → String
  | .null => "Null"
  | .uint64 => "UInt64"
  | .int64 => "Int64"
  | .float64 => "Float64"
  | .uint128 => "UInt128"
  | .int128 => "Int128"
  | .str => "String"
  | .arr => "Array"
  | .tup => "Tuple"
  | .dec32 => "Decimal32"
  | .dec64 => "Decimal64"
  | .dec128 => "Decimal128"
  | .agg => "AggregateFunctionState"

/-- The `Field` value itself. -/
inductive FieldV where
  | null
  | uint64 (v : Nat)
  | int64 (v : Int)
  | float64 (bits : Nat)
  | uint128 (v : Nat)
  | int128 (v : Int)
  | str (s : List Nat)
  | arr (xs : List FieldV)
  | tup (xs : List FieldV)
  | dec32 (v : Int) (scale : Nat)
  | dec64 (v : Int) (scale : Nat)
  | dec128 (v : Int) (scale : Nat)
  | agg (s : AggregateFunctionStateData)
  deriving Repr

namespace FieldV

/-- `getType()`: the active variant. -/
def which : FieldV → WhichT
  | .null => .null
  | .uint64 _ => .uint64
  | .int64 _ => .int64
  | .float64 _ => .float64
  | .uint128 _ => .uint128
  | .int128 _ => .int128
  | .str _ => .str
  | .arr _ => .arr
  | .tup _ => .tup
  | .dec32 _ _ => .dec32
  | .dec64 _ _ => .dec64
  | .dec128 _ _ => .dec128
  | .agg _ => .agg

/-- The numeric discriminant compared by `which < rhs.which`. -/
def discr (f : FieldV) : Nat := whichNum f.which

end FieldV

/-- The raw 64-bit storage bit pattern of an Int64 payload (two's
complement): what `get<UInt64>()` reads back from an Int64 field. -/
def toBits64 (x : Int) : Nat := (x % (2 ^ 64 : Int)).toNat

/-- IEEE-754 binary64: NaN bit patterns (exponent all ones, nonzero
mantissa). -/
def f64IsNaN (x : Nat) : Bool :=
  decide ((x / 2 ^ 52) % 2 ^ 11 = 2047) && decide (x % 2 ^ 52 ≠ 0)

/-- IEEE-754 binary64: the two zero bit patterns (+0.0 and -0.0). -/
def f64IsZero (x : Nat) : Bool := decide (x % 2 ^ 63 = 0)

/-- IEEE-754 binary64 less-than on bit patterns: the semantics of the
C++ `double` comparison used by `Field::operator<` on Float64. -/
def floatLtBits (a b : Nat) : Bool :=
  if f64IsNaN a || f64IsNaN b then false
  else if f64IsZero a && f64IsZero b then false
  else if 2 ^ 63 ≤ a then (if 2 ^ 63 ≤ b then decide (b < a) else true)
  else (if 2 ^ 63 ≤ b then false else decide (a < b))

/-- IEEE-754 binary64 numeric equality on bit patterns: the spec's
"numeric comparison" notion of equality for Float64 (±0.0 equal, NaN
unequal to everything). -/
def float64NumericEqBits (a b : Nat) : Bool :=
  if f64IsNaN a || f64IsNaN b then false
  else (f64IsZero a && f64IsZero b) || decide (a = b)

/-- `std::string operator<`: lexicographic byte comparison. -/
def strLtB : List Nat → List Nat → Bool
  | [], [] => false
  | [], _ :: _ => true
  | _ :: _, [] => false
  | a :: as, b :: bs => decide (a < b) || (decide (a = b) && strLtB as bs)

mutual

/-- `Field::operator<`: discriminant first, then the variant-specific
comparison; `Array`/`Tuple` use `std::vector`'s lexicographic compare
(which compares elements in both directions and can throw), and the
AggregateFunctionState case throws. -/
def FieldV.lt : FieldV → FieldV → Except String Bool
  | a, b =>
    if a.discr < b.discr then .ok true
    else if b.discr < a.discr then .ok false
    else
      match a, b with
      | .null, .null => .ok false
      | .uint64 x, .uint64 y => .ok (decide (x < y))
      | .uint128 x, .uint128 y => .ok (decide (x < y))
      | .int64 x, .int64 y => .ok (decide (x < y))
      | .int128 x, .int128 y => .ok (decide (x < y))
      | .float64 x, .float64 y => .ok (floatLtBits x y)
      | .str s, .str t => .ok (strLtB s t)
      | .arr xs, .arr ys => FieldV.listLt xs ys
      | .tup xs, .tup ys => FieldV.listLt xs ys
      | .dec32 x xs, .dec32 y ys => .ok (decimalLess x y xs ys)
      | .dec64 x xs, .dec64 y ys => .ok (decimalLess x y xs ys)
      | .dec128 x xs, .dec128 y ys => .ok (decimalLess x y xs ys)
      | .agg s1, .agg s2 => AggregateFunctionStateData.ltE s1 s2
      | _, _ => .error "Bad type of Field"
  termination_by a b => sizeOf a + sizeOf b

/-- `std::lexicographical_compare` over `Field` elements. -/
def FieldV.listLt : List FieldV → List FieldV → Except String Bool
  | _, [] => .ok false
  | [], _ :: _ => .ok true
  | x :: xs, y :: ys => do
      let b1 ← FieldV.lt x y
      if b1 then pure true
      else do
        let b2 ← FieldV.lt y x
        if b2 then pure false else FieldV.listLt xs ys
  termination_by xs ys => sizeOf xs + sizeOf ys

end

mutual

/-- `Field::operator==`: `false` across different variants; for the
UInt64/Int64/Float64 variants the source compares the raw 64-bit
storage (`get<UInt64>() == rhs.get<UInt64>()`), hence the bit-pattern
comparison here; `Array`/`Tuple` use `std::vector::operator==` (size
check first, then element-wise, which can throw); AggregateFunctionState
delegates to the struct's throwing `operator==`. -/
def FieldV.eq : FieldV → FieldV → Except String Bool
  | a, b =>
    if a.discr ≠ b.discr then .ok false
    else
      match a, b with
      | .null, .null => .ok true
      | .uint64 x, .uint64 y => .ok (decide (x = y))
      | .int64 x, .int64 y => .ok (decide (toBits64 x = toBits64 y))
      | .float64 x, .float64 y => .ok (decide (x = y))
      | .str s, .str t => .ok (decide (s = t))
      | .arr xs, .arr ys => FieldV.listEq xs ys
      | .tup xs, .tup ys => FieldV.listEq xs ys
      | .uint128 x, .uint128 y => .ok (decide (x = y))
      | .int128 x, .int128 y => .ok (decide (x = y))
      | .dec32 x xs, .dec32 y ys => .ok (decimalEqual x y xs ys)
      | .dec64 x xs, .dec64 y ys => .ok (decimalEqual x y xs ys)
      | .dec128 x xs, .dec128 y ys => .ok (decimalEqual x y xs ys)
      | .agg s1, .agg s2 => AggregateFunctionStateData.eqE s1 s2
      | _, _ => .error "Bad type of Field"
  termination_by a b => sizeOf a + sizeOf b

/-- `std::vector<Field>::operator==`: sizes first, then element-wise. -/
def FieldV.listEq : List FieldV → List FieldV → Except String Bool
  | xs, ys =>
    if xs.length ≠ ys.length then .ok false
    else FieldV.listEqAux xs ys
  termination_by xs ys => sizeOf xs + sizeOf ys + 1

/-- `std::equal` over `Field` elements (lengths already equal). -/
def FieldV.listEqAux : List FieldV → List FieldV → Except String Bool
  | [], _ => .ok true
  | _ :: _, [] => .ok true
  | x :: xs, y :: ys => do
      let b ← FieldV.eq x y
      if b then FieldV.listEqAux xs ys else pure false
  termination_by xs ys => sizeOf xs + sizeOf ys

end

/-- `Field::safeGet<T>`: succeeds with the stored value exactly when
the active variant is the requested one; otherwise throws the
type-mismatch error naming both variants.  The model is pure, so the
field is never modified. -/
def FieldV.safeGet (f : FieldV) (req : WhichT) : Except String FieldV :=
  if f.which = req then .ok f
  else
    .error ("Bad get: has " ++ whichName f.which ++ ", requested " ++ whichName req)

/-- C6 counterexample: `+0.0` (bits 0) and `-0.0` (bits `2^63`) are the
same numeric Float64 value, yet `Field::operator==` — which compares
the raw 64-bit storage via `get<UInt64>()` — declares the two Fields
unequal.  So equality of two same-numeric-variant Fields does not hold
exactly when their numeric values are equal. -/
theorem claim_C6_counterexample :
    FieldV.eq (.float64 0) (.float64 (2 ^ 63)) = .ok false ∧
    float64NumericEqBits 0 (2 ^ 63) = true ∧
    f64IsNaN 0 = false ∧ f64IsNaN (2 ^ 63) = false := by
  refine ⟨?_, by decide, by decide, by decide⟩
  simp [FieldV.eq, FieldV.discr, FieldV.which, whichNum]

/-- C6 (amended): Field comparison is determined first by the variant
discriminant; between same-variant Fields, `operator<` uses the
variant-specific comparison (integer compare, IEEE double compare for
Float64, lexicographic for String/Array/Tuple, scale-aware rational
compare for Decimal, and a throw for AggregateFunctionState), while
`operator==` compares UInt64/Int64/Float64 by their raw 64-bit storage
bits — which for Float64 differs from numeric equality (the
counterexample), so the order is total only away from such values. -/
theorem claim_C6_field_order_amended :
    (∀ a b : FieldV, a.discr < b.discr → FieldV.lt a b = .ok true) ∧
    (∀ a b : FieldV, b.discr < a.discr → FieldV.lt a b = .ok false) ∧
    (∀ a b : FieldV, a.discr ≠ b.discr → FieldV.eq a b = .ok false) ∧
    (∀ x y : Nat, FieldV.lt (.uint64 x) (.uint64 y) = .ok (decide (x < y))) ∧
    (∀ x y : Int, FieldV.lt (.int64 x) (.int64 y) = .ok (decide (x < y))) ∧
    (∀ x y : Nat, FieldV.lt (.uint128 x) (.uint128 y) = .ok (decide (x < y))) ∧
    (∀ x y : Int, FieldV.lt (.int128 x) (.int128 y) = .ok (decide (x < y))) ∧
    (∀ x y : Nat, FieldV.lt (.float64 x) (.float64 y) = .ok (floatLtBits x y)) ∧
    (∀ s t : List Nat, FieldV.lt (.str s) (.str t) = .ok (strLtB s t)) ∧
    (∀ xs ys : List FieldV, FieldV.lt (.arr xs) (.arr ys) = FieldV.listLt xs ys) ∧
    (∀ xs ys : List FieldV, FieldV.lt (.tup xs) (.tup ys) = FieldV.listLt xs ys) ∧
    (∀ (x y : Int) (xs ys : Nat),
      FieldV.lt (.dec64 x xs) (.dec64 y ys) = .ok (decide (x * 10 ^ ys < y * 10 ^ xs))) ∧
    (∀ x y : Nat, FieldV.eq (.uint64 x) (.uint64 y) = .ok (decide (x = y))) ∧
    (∀ x y : Int, -2 ^ 63 ≤ x → x < 2 ^ 63 → -2 ^ 63 ≤ y → y < 2 ^ 63 →
      (FieldV.eq (.int64 x) (.int64 y) = .ok true ↔ x = y)) ∧
    (∀ x y : Nat, FieldV.eq (.float64 x) (.float64 y) = .ok (decide (x = y))) ∧
    (∀ s t : List Nat, FieldV.eq (.str s) (.str t) = .ok (decide (s = t))) ∧
    (∀ xs ys : List FieldV, FieldV.eq (.arr xs) (.arr ys) = FieldV.listEq xs ys) ∧
    (∀ (x y : Int) (xs ys : Nat),
      FieldV.eq (.dec64 x xs) (.dec64 y ys) = .ok (decide (x * 10 ^ ys = y * 10 ^ xs))) ∧
    (∀ s1 s2 : AggregateFunctionStateData,
      FieldV.lt (.agg s1) (.agg s2) =
        .error "Operator < is not implemented for AggregateFunctionStateData.") ∧
    (∀ x y : Nat, FieldV.eq (.uint128 x) (.uint128 y) = .ok (decide (x = y))) ∧
    (∀ x y : Int, FieldV.eq (.int128 x) (.int128 y) = .ok (decide (x = y))) ∧
    (∀ (x y : Int) (xs ys : Nat),
      FieldV.lt (.dec32 x xs) (.dec32 y ys) = .ok (decide (x * 10 ^ ys < y * 10 ^ xs))) ∧
    (∀ (x y : Int) (xs ys : Nat),
      FieldV.lt (.dec128 x xs) (.dec128 y ys) = .ok (decide (x * 10 ^ ys < y * 10 ^ xs))) ∧
    (∀ xs ys : List FieldV, FieldV.eq (.tup xs) (.tup ys) = FieldV.listEq xs ys) ∧
    FieldV.lt .null .null = .ok false ∧
    FieldV.eq .null .null = .ok true ∧
    (∀ s1 s2 : AggregateFunctionStateData,
      FieldV.eq (.agg s1) (.agg s2) = AggregateFunctionStateData.eqE s1 s2) := by
  refine ⟨?_, ?_, ?_, ?_, ?_, ?_, ?_, ?_, ?_, ?_, ?_, ?_, ?_, ?_, ?_, ?_, ?_, ?_, ?_,
    ?_, ?_, ?_, ?_, ?_, ?_, ?_, ?_⟩
  · intro a b h
    rw [FieldV.lt.eq_def]
    dsimp only
    rw [if_pos h]
  · intro a b h
    rw [FieldV.lt.eq_def]
    dsimp only
    rw [if_neg (by omega), if_pos h]
  · intro a b h
    rw [FieldV.eq.eq_def]
    dsimp only
    rw [if_pos h]
  · intro x y
    simp [FieldV.lt, FieldV.discr, FieldV.which, whichNum]
  · intro x y
    simp [FieldV.lt, FieldV.discr, FieldV.which, whichNum]
  · intro x y
    simp [FieldV.lt, FieldV.discr, FieldV.which, whichNum]
  · intro x y
    simp [FieldV.lt, FieldV.discr, FieldV.which, whichNum]
  · intro x y
    simp [FieldV.lt, FieldV.discr, FieldV.which, whichNum]
  · intro s t
    simp [FieldV.lt, FieldV.discr, FieldV.which, whichNum]
  · intro xs ys
    simp [FieldV.lt, FieldV.discr, FieldV.which, whichNum]
  · intro xs ys
    simp [FieldV.lt, FieldV.discr, FieldV.which, whichNum]
  · intro x y xs ys
    simp [FieldV.lt, FieldV.discr, FieldV.which, whichNum, decimalLess]
  · intro x y
    simp [FieldV.eq, FieldV.discr, FieldV.which, whichNum]
  · intro x y h1 h2 h3 h4
    simp only [FieldV.eq, FieldV.discr, FieldV.which, whichNum, ne_eq, not_true_eq_false,
      if_false, reduceIte, Except.ok.injEq, decide_eq_true_eq]
    unfold toBits64
    omega
  · intro x y
    simp [FieldV.eq, FieldV.discr, FieldV.which, whichNum]
  · intro s t
    simp [FieldV.eq, FieldV.discr, FieldV.which, whichNum]
  · intro xs ys
    simp [FieldV.eq, FieldV.discr, FieldV.which, whichNum]
  · intro x y xs ys
    simp [FieldV.eq, FieldV.discr, FieldV.which, whichNum, decimalEqual]
  · intro s1 s2
    simp [FieldV.lt, FieldV.discr, FieldV.which, whichNum,
      AggregateFunctionStateData.ltE]
  · intro x y
    simp [FieldV.eq, FieldV.discr, FieldV.which, whichNum]
  · intro x y
    simp [FieldV.eq, FieldV.discr, FieldV.which, whichNum]
  · intro x y xs ys
    simp [FieldV.lt, FieldV.discr, FieldV.which, whichNum, decimalLess]
  · intro x y xs ys
    simp [FieldV.lt, FieldV.discr, FieldV.which, whichNum, decimalLess]
  · intro xs ys
    simp [FieldV.eq, FieldV.discr, FieldV.which, whichNum]
  · simp [FieldV.lt, FieldV.discr, FieldV.which, whichNum]
  · simp [FieldV.eq, FieldV.discr, FieldV.which, whichNum]
  · intro s1 s2
    simp [FieldV.eq, FieldV.discr, FieldV.which, whichNum]

/-- Witness for C6 (amended) at concrete Fields. -/
theorem claim_C6_field_order_amended_witness :
    FieldV.lt .null (.uint64 7) = .ok true ∧
    FieldV.lt (.uint64 7) .null = .ok false ∧
    FieldV.eq .null (.uint64 7) = .ok false ∧
    (FieldV.eq (.int64 5) (.int64 5) = .ok true ↔ (5 : Int) = 5) := by
  obtain ⟨h1, h2, h3, -, -, -, -, -, -, -, -, -, -, h14, -⟩ :=
    claim_C6_field_order_amended
  exact ⟨h1 _ _ (by decide), h2 _ _ (by decide), h3 _ _ (by decide),
    h14 5 5 (by decide) (by decide) (by decide) (by decide)⟩

/-- C8: `safeGet` succeeds with the stored value (leaving the Field
unchanged — the model is pure and returns the Field itself) exactly
when the active variant is the requested one, and otherwise fails with
the "Bad get" error naming both variants; variant names are distinct,
so the error determines both. -/
theorem claim_C8_safeGet (f : FieldV) (req : WhichT) :
    (f.which = req → f.safeGet req = .ok f) ∧
    (f.which ≠ req → f.safeGet req =
      .error ("Bad get: has " ++ whichName f.which ++ ", requested " ++ whichName req)) ∧
    (∀ w1 w2 : WhichT, whichName w1 = whichName w2 → w1 = w2) := by
  refine ⟨?_, ?_, ?_⟩
  · intro h
    simp [FieldV.safeGet, h]
  · intro h
    simp [FieldV.safeGet, h]
  · decide

/-- Witness for C8: matching and mismatching requests on `UInt64 3`. -/
theorem claim_C8_safeGet_witness :
    (FieldV.uint64 3).safeGet .uint64 = .ok (.uint64 3) ∧
    (FieldV.uint64 3).safeGet .str =
      .error "Bad get: has UInt64, requested String" := by
  have h1 := (claim_C8_safeGet (.uint64 3) .uint64).1 (by decide)
  have h2 := (claim_C8_safeGet (.uint64 3) .str).2.1 (by decide)
  exact ⟨h1, h2⟩

/-- C9: each AggregateFunctionStateData ordering comparison always
throws (never returns a boolean), and equality throws when the names
differ but otherwise compares the payloads. -/
theorem claim_C9_aggstate_compare (a b : AggregateFunctionStateData) :
    (∀ r : Bool, a.ltE b ≠ .ok r ∧ a.leE b ≠ .ok r ∧ a.gtE b ≠ .ok r ∧ a.geE b ≠ .ok r) ∧
    a.ltE b = .error "Operator < is not implemented for AggregateFunctionStateData." ∧
    a.leE b = .error "Operator <= is not implemented for AggregateFunctionStateData." ∧
    a.gtE b = .error "Operator > is not implemented for AggregateFunctionStateData." ∧
    a.geE b = .error "Operator >= is not implemented for AggregateFunctionStateData." ∧
    (a.name = b.name → a.eqE b = .ok (decide (a.data = b.data))) ∧
    (a.name ≠ b.name → a.eqE b =
      .error ("Comparing aggregate functions with different types: " ++ a.name ++
        " and " ++ b.name)) := by
  refine ⟨?_, rfl, rfl, rfl, rfl, ?_, ?_⟩
  · intro r
    refine ⟨?_, ?_, ?_, ?_⟩ <;> simp [AggregateFunctionStateData.ltE,
      AggregateFunctionStateData.leE, AggregateFunctionStateData.gtE,
      AggregateFunctionStateData.geE]
  · intro h
    simp [AggregateFunctionStateData.eqE, h]
  · intro h
    simp [AggregateFunctionStateData.eqE, h]

/-- Witness for C9 at concrete states (equal names and distinct
names). -/
theorem claim_C9_aggstate_compare_witness :
    AggregateFunctionStateData.eqE ⟨"sum", "1"⟩ ⟨"sum", "1"⟩ = .ok true ∧
    AggregateFunctionStateData.eqE ⟨"sum", "1"⟩ ⟨"avg", "1"⟩ =
      .error "Comparing aggregate functions with different types: sum and avg" ∧
    AggregateFunctionStateData.ltE ⟨"sum", "1"⟩ ⟨"avg", "1"⟩ =
      .error "Operator < is not implemented for AggregateFunctionStateData." := by
  have h1 := (claim_C9_aggstate_compare ⟨"sum", "1"⟩ ⟨"sum", "1"⟩).2.2.2.2.2.1 (by decide)
  have h2 := (claim_C9_aggstate_compare ⟨"sum", "1"⟩ ⟨"avg", "1"⟩).2.2.2.2.2.2 (by decide)
  have h3 := (claim_C9_aggstate_compare ⟨"sum", "1"⟩ ⟨"avg", "1"⟩).2.1
  exact ⟨h1, h2, h3⟩

/-! ## MysqlResultWriter (src/unnamed/part_000)

The writer encodes each cell with exactly one `MysqlRowBuffer` push.
`MysqlRowBuffer` itself is outside src: following the spec (§4.3, §6)
each `push_*` appends one wire-encoded field with a fixed injective
encoding and returns a non-zero status on failure, so wire items are
kept symbolic and a push-failure oracle `pushOk` is threaded through. -/

/-- Decimal-digit list of `n`, least significant first, driven by a
structural fuel (≥ n) so that it stays kernel-reducible. -/
def natDigitsAux : Nat → Nat → List Nat
  | 0, _ => []
  | _ + 1, 0 => []
  | fuel + 1, n + 1 => ((n + 1) % 10) :: natDigitsAux fuel ((n + 1) / 10)

/-- ASCII decimal rendering of a natural number. -/
def natBytes (n : Nat) : List Nat :=
  if n = 0 then [48] else ((natDigitsAux n n).reverse.map (fun d => d + 48))

/-- Modelled from the spec: `LargeIntValue::to_string` (outside src) —
canonical decimal text of the 128-bit integer, leading `-` when
negative, no leading zeros. -/
def largeIntToString (v : Int) : List Nat :=
  if v < 0 then 45 :: natBytes v.natAbs else natBytes v.natAbs

/-- Modelled from the spec: `time_str_from_double` (outside src) — the
canonical TIME text; kept as a fixed injective rendering of the
double's bit pattern, the same wherever it is called. -/
def timeStrFromDouble (bits : Nat) : List Nat := natBytes bits

/-- Modelled from the spec: `DateTimeValue::to_string` (outside src) —
canonical date/time text; both writer paths push `pos - buf - 1` bytes,
so this is the rendering with the historical one-trailing-byte trim
already applied, identical in both paths. -/
def dtRendered (bits : Nat) : List Nat := natBytes bits

/-- The nine-digit zero-padded fractional block of a DecimalV2 value
(DecimalV2 stores the value at the fixed internal scale of nine
fractional digits). -/
def pad9 (fp : Nat) : List Nat :=
  List.replicate (9 - (natBytes fp).length) 48 ++ natBytes fp

/-- Drop trailing ASCII zeros. -/
def stripTrailingZeros (l : List Nat) : List Nat :=
  (l.reverse.dropWhile (fun b => b == 48)).reverse

/-- Modelled from the spec: `DecimalV2Value::to_string` (outside src) —
decimal text at the requested output scale (`some k`: exactly k
fractional digits, zero-padded), or at the value's natural scale
(`none`: trailing zeros stripped, no fraction part when it is zero). -/
def decToBytes (v : Int) (s : Option Nat) : List Nat :=
  let n := v.natAbs
  let ip := n / 10 ^ 9
  let fp := n % 10 ^ 9
  let frac :=
    match s with
    | some k => (pad9 fp ++ List.replicate k 48).take k
    | none => stripTrailingZeros (pad9 fp)
  let core := natBytes ip ++ (if frac.isEmpty then [] else 46 :: frac)
  if v < 0 then 45 :: core else core

/-- The writer's output-scale test
`output_scale > 0 && output_scale <= 30`, selecting the explicit scale
or the natural rendering. -/
def scaleArg (outputScale : Int) : Option Nat :=
  if 0 < outputScale ∧ outputScale ≤ 30 then some outputScale.toNat else none

/-- One wire-encoded field as produced by a `MysqlRowBuffer` push
(modelled from the spec: one-byte null marker, or the field's fixed
encoding of the pushed value — kept symbolic, the encodings being fixed
injective functions of the argument). -/
inductive WireItem where
  | null
  | tiny (v : Int)
  | small (v : Int)
  | int32 (v : Int)
  | big (v : Int)
  | flt (bits : Nat)
  | dbl (bits : Nat)
  | bytes (payload : List Nat)
  deriving Repr, DecidableEq

/-- Modelled from the spec: a `push_*` call appends its item and
returns status 0, or fails (non-zero status, e.g. buffer exhaustion);
the failure oracle is the parameter `pushOk`. -/
def pushI (pushOk : WireItem → Bool) (it : WireItem) : Except Unit WireItem :=
  if pushOk it then .ok it else .error ()

/-- The always-succeeding push oracle. -/
def allPushesOk : WireItem → Bool := fun _ => true

/-- The `PrimitiveType`s the writer dispatches on (`other` stands for
any type reaching the `default:` label of `_add_one_row`). -/
inductive ColType where
  | boolean
  | tinyint
  | smallint
  | int
  | bigint
  | largeint
  | float
  | double
  | time
  | date
  | datetime
  | hll
  | object
  | varchar
  | char
  | decimal
  | decimalv2
  | other
  deriving Repr, DecidableEq

/-- The template type parameters `_add_one_column` is instantiated
with in `append_block`. -/
inductive VecType where
  | tinyint
  | smallint
  | int
  | bigint
  | largeint
  | float
  | double
  | datetime
  | object
  | varchar
  | decimalv2
  deriving Repr, DecidableEq

/-- The logical value stored in one (non-null) cell.  `strv` carries
the bytes the data pointer points at (`none` = null pointer) and the
length field; `dec` is the DecimalV2 underlying 128-bit integer;
`f32`/`f64`/`dt` carry bit patterns. -/
inductive CellVal where
  | i8 (v : Int)
  | i16 (v : Int)
  | i32 (v : Int)
  | i64 (v : Int)
  | i128 (v : Int)
  | f32 (bits : Nat)
  | f64 (bits : Nat)
  | dt (bits : Nat)
  | obj
  | strv (ptr : Option (List Nat)) (len : Nat)
  | dec (v : Int)
  deriving Repr, DecidableEq

/-- A cell value of the shape the given column type stores. -/
def wellTypedV : ColType → CellVal → Bool
  | .boolean, .i8 _ => true
  | .tinyint, .i8 _ => true
  | .smallint, .i16 _ => true
  | .int, .i32 _ => true
  | .bigint, .i64 _ => true
  | .largeint, .i128 _ => true
  | .float, .f32 _ => true
  | .double, .f64 _ => true
  | .time, .f64 _ => true
  | .date, .dt _ => true
  | .datetime, .dt _ => true
  | .hll, .obj => true
  | .object, .obj => true
  | .varchar, .strv _ _ => true
  | .char, .strv _ _ => true
  | .decimal, .dec _ => true
  | .decimalv2, .dec _ => true
  | _, _ => false

/-- `none` is the SQL NULL cell; a present cell must match its column
type. -/
def wellTyped (ty : ColType) : Option CellVal → Bool
  | none => true
  | some v => wellTypedV ty v

/-- The VARCHAR/CHAR branch of `_add_one_row`: null data pointer with
zero length pushes the empty string through the `0x01` magic pointer
(zero bytes are read, hence the empty payload); null pointer with
non-zero length pushes the null marker; otherwise the pointed-to bytes
are pushed, `len` of them. -/
def rowStringBranch (pushOk : WireItem → Bool) (ptr : Option (List Nat))
    (len : Nat) : Except Unit WireItem :=
  match ptr with
  | none => if len = 0 then pushI pushOk (.bytes []) else pushI pushOk .null
  | some bs => pushI pushOk (.bytes (bs.take len))

/-- The TYPE_VARCHAR branch of `_add_one_column`, transcribed from its
own site (it is textually the same three-way test as the row path's). -/
def vecStringBranch (pushOk : WireItem → Bool) (ptr : Option (List Nat))
    (len : Nat) : Except Unit WireItem :=
  match ptr with
  | none => if len = 0 then pushI pushOk (.bytes []) else pushI pushOk .null
  | some bs => pushI pushOk (.bytes (bs.take len))

/-- One cell of `_add_one_row` (the expression value plus the switch on
the expression's type): a NULL value pushes the null marker; otherwise
the branch for the declared type runs.  The catch-all `.error ()`
covers the `default:` label (`buf_ret = -1`, no encoding rule); a
type-confused cell (never produced by a well-typed expression) also
lands there, standing in for the source's unmodellable reinterpretation
of raw memory. -/
def rowEncodeCell (pushOk : WireItem → Bool) (outputScale : Int) (ty : ColType)
    (cell : Option CellVal) : Except Unit WireItem :=
  match cell with
  | none => pushI pushOk .null
  | some v =>
    match ty, v with
    | .boolean, .i8 x => pushI pushOk (.tiny x)
    | .tinyint, .i8 x => pushI pushOk (.tiny x)
    | .smallint, .i16 x => pushI pushOk (.small x)
    | .int, .i32 x => pushI pushOk (.int32 x)
    | .bigint, .i64 x => pushI pushOk (.big x)
    | .largeint, .i128 x => pushI pushOk (.bytes (largeIntToString x))
    | .float, .f32 x => pushI pushOk (.flt x)
    | .double, .f64 x => pushI pushOk (.dbl x)
    | .time, .f64 x => pushI pushOk (.bytes (timeStrFromDouble x))
    | .date, .dt x => pushI pushOk (.bytes (dtRendered x))
    | .datetime, .dt x => pushI pushOk (.bytes (dtRendered x))
    | .hll, .obj => pushI pushOk .null
    | .object, .obj => pushI pushOk .null
    | .varchar, .strv p l => rowStringBranch pushOk p l
    | .char, .strv p l => rowStringBranch pushOk p l
    | .decimal, .dec x => pushI pushOk (.bytes (decToBytes x (scaleArg outputScale)))
    | .decimalv2, .dec x => pushI pushOk (.bytes (decToBytes x (scaleArg outputScale)))
    | _, _ => .error ()

/-- One cell of `_add_one_column` at template type `t`: a null row of a
nullable column pushes the null marker; otherwise the `if constexpr`
chain for `t` runs.  The DECIMALV2 branch renders at the natural scale:
the output-scale code is commented out in the source. -/
def vecEncodeCellT (pushOk : WireItem → Bool) (t : VecType)
    (cell : Option CellVal) : Except Unit WireItem :=
  match cell with
  | none => pushI pushOk .null
  | some v =>
    match t, v with
    | .tinyint, .i8 x => pushI pushOk (.tiny x)
    | .smallint, .i16 x => pushI pushOk (.small x)
    | .int, .i32 x => pushI pushOk (.int32 x)
    | .bigint, .i64 x => pushI pushOk (.big x)
    | .largeint, .i128 x => pushI pushOk (.bytes (largeIntToString x))
    | .float, .f32 x => pushI pushOk (.flt x)
    | .double, .f64 x => pushI pushOk (.dbl x)
    | .datetime, .dt x => pushI pushOk (.bytes (dtRendered x))
    | .object, .obj => pushI pushOk .null
    | .varchar, .strv p l => vecStringBranch pushOk p l
    | .decimalv2, .dec x => pushI pushOk (.bytes (decToBytes x none))
    | _, _ => .error ()

/-- The `append_block` switch from the expression's result type to the
`_add_one_column` instantiation; `none` is the `default:` label
(`"vec block pack mysql buffer failed."`). -/
def vecDispatch : ColType → Option VecType
  | .boolean => some .tinyint
  | .tinyint => some .tinyint
  | .smallint => some .smallint
  | .int => some .int
  | .bigint => some .bigint
  | .largeint => some .largeint
  | .float => some .float
  | .double => some .double
  | .char => some .varchar
  | .varchar => some .varchar
  | .decimalv2 => some .decimalv2
  | .date => some .datetime
  | .datetime => some .datetime
  | .hll => some .object
  | .object => some .object
  | .time => none
  | .decimal => none
  | .other => none

/-- One output expression slot: declared type and `output_scale()`. -/
structure ColSpec where
  ty : ColType
  outputScale : Int
  deriving Repr, DecidableEq

/-- `Except.isOk`. -/
def isOkE {ε α : Type} : Except ε α → Bool
  | .ok _ => true
  | .error _ => false

/-- The column loop of `_add_one_row`: encode each cell of the row in
order, stopping at the first non-zero status (`0 == buf_ret && i <
num_columns`). -/
def encodeCells (pushOk : WireItem → Bool) :
    List (ColSpec × Option CellVal) → Except Unit (List WireItem)
  | [] => .ok []
  | (cspec, v) :: rest =>
    match rowEncodeCell pushOk cspec.outputScale cspec.ty v with
    | .error e => .error e
    | .ok it =>
      match encodeCells pushOk rest with
      | .error e => .error e
      | .ok its => .ok (it :: its)

/-- `_add_one_row`: reset the row buffer and encode the row's cells
against the output expressions; error = `"pack mysql buffer failed."`. -/
def addOneRow (pushOk : WireItem → Bool) (cols : List ColSpec)
    (row : List (Option CellVal)) : Except Unit (List WireItem) :=
  encodeCells pushOk (cols.zip row)

/-- The row loop of `append_row_batch`: convert rows while the status
stays OK, collecting each converted row buffer. -/
def encodeRows (pushOk : WireItem → Bool) (cols : List ColSpec) :
    List (List (Option CellVal)) → Except Unit (List (List WireItem))
  | [] => .ok []
  | r :: rs =>
    match addOneRow pushOk cols r with
    | .error e => .error e
    | .ok items =>
      match encodeRows pushOk cols rs with
      | .error e => .error e
      | .ok rest => .ok (items :: rest)

/-- `append_row_batch` (row-at-a-time path): empty batches return OK
without touching the sink; a row conversion failure aborts with
`"pack mysql buffer failed."` and nothing is handed to the sink;
otherwise the encoded batch goes to the sink and its status is
returned.  The second component records what was handed to the sink. -/
def appendRowBatch (pushOk : WireItem → Bool)
    (sink : List (List WireItem) → Except String Unit) (cols : List ColSpec)
    (rows : List (List (Option CellVal))) :
    Except String Unit × Option (List (List WireItem)) :=
  if rows = [] then (.ok (), none)
  else
    match encodeRows pushOk cols rows with
    | .error _ => (.error "pack mysql buffer failed.", none)
    | .ok batch =>
      match sink batch with
      | .ok _ => (.ok (), some batch)
      | .error e => (.error e, some batch)

/-- The row loop of `_add_one_column` at template type `t`: encode each
row's cell, returning `"pack mysql buffer failed."` at the first
non-zero status. -/
def addOneColumn (pushOk : WireItem → Bool) (t : VecType) :
    List (Option CellVal) → Except Unit (List WireItem)
  | [] => .ok []
  | ccell :: rest =>
    match vecEncodeCellT pushOk t ccell with
    | .error e => .error e
    | .ok it =>
      match addOneColumn pushOk t rest with
      | .error e => .error e
      | .ok its => .ok (it :: its)

/-- A block handed to `append_block`: the row count and, per output
column, its resolved type and cells (column-major). -/
structure VecBlock where
  nrows : Nat
  cols : List (ColType × List (Option CellVal))
  deriving Repr, DecidableEq

/-- The column loop of `append_block`: dispatch each column's result
type (the `default:` label returns
`"vec block pack mysql buffer failed."` at once), run
`_add_one_column`, and append each row's buffer to the accumulated
per-row byte strings. -/
def appendBlockCols (pushOk : WireItem → Bool) :
    List (ColType × List (Option CellVal)) → List (List WireItem) →
    Except String (List (List WireItem))
  | [], acc => .ok acc
  | (ty, cells) :: rest, acc =>
    match vecDispatch ty with
    | none => .error "vec block pack mysql buffer failed."
    | some t =>
      match addOneColumn pushOk t cells with
      | .error _ => .error "pack mysql buffer failed."
      | .ok items =>
        appendBlockCols pushOk rest (acc.zipWith (fun r it => r ++ [it]) items)

/-- `append_block` (vectorized path): zero-row blocks return OK without
touching the sink; any column failure aborts with no hand-off;
otherwise the per-row encoded batch goes to the sink.  The second
component records what was handed to the sink. -/
def appendBlock (pushOk : WireItem → Bool)
    (sink : List (List WireItem) → Except String Unit) (blk : VecBlock) :
    Except String Unit × Option (List (List WireItem)) :=
  if blk.nrows = 0 then (.ok (), none)
  else
    match appendBlockCols pushOk blk.cols (List.replicate blk.nrows []) with
    | .error e => (.error e, none)
    | .ok batch =>
      match sink batch with
      | .ok _ => (.ok (), some batch)
      | .error e => (.error e, some batch)

/-- C3: in both writer paths, a string cell with a null data pointer
and zero length encodes as the zero-length string payload (never the
null marker); a null pointer with non-zero length encodes as the null
marker; and a non-null pointer encodes as the payload of exactly its
bytes.  Stated for VARCHAR and CHAR (the row path treats them by the
same branch; the vectorized path dispatches both to TYPE_VARCHAR). -/
theorem claim_C3_string_cells (sc : Int) (len : Nat) (bs : List Nat) :
    (rowEncodeCell allPushesOk sc .varchar (some (.strv none 0)) = .ok (.bytes []) ∧
     rowEncodeCell allPushesOk sc .char (some (.strv none 0)) = .ok (.bytes []) ∧
     vecEncodeCellT allPushesOk .varchar (some (.strv none 0)) = .ok (.bytes [])) ∧
    (len ≠ 0 →
      rowEncodeCell allPushesOk sc .varchar (some (.strv none len)) = .ok .null ∧
      rowEncodeCell allPushesOk sc .char (some (.strv none len)) = .ok .null ∧
      vecEncodeCellT allPushesOk .varchar (some (.strv none len)) = .ok .null) ∧
    (rowEncodeCell allPushesOk sc .varchar (some (.strv (some bs) bs.length))
        = .ok (.bytes bs) ∧
     rowEncodeCell allPushesOk sc .char (some (.strv (some bs) bs.length))
        = .ok (.bytes bs) ∧
     vecEncodeCellT allPushesOk .varchar (some (.strv (some bs) bs.length))
        = .ok (.bytes bs)) := by
  refine ⟨⟨rfl, rfl, rfl⟩, ?_, ?_⟩
  · intro h
    refine ⟨?_, ?_, ?_⟩ <;>
      simp [rowEncodeCell, vecEncodeCellT, rowStringBranch, vecStringBranch,
        pushI, allPushesOk, h]
  · refine ⟨?_, ?_, ?_⟩ <;>
      simp [rowEncodeCell, vecEncodeCellT, rowStringBranch, vecStringBranch,
        pushI, allPushesOk]

/-- Witness for C3 at scale 0, length 1, payload "a". -/
theorem claim_C3_string_cells_witness :
    rowEncodeCell allPushesOk 0 .varchar (some (.strv none 0)) = .ok (.bytes []) ∧
    rowEncodeCell allPushesOk 0 .varchar (some (.strv none 1)) = .ok .null ∧
    vecEncodeCellT allPushesOk .varchar (some (.strv (some [97]) 1))
      = .ok (.bytes [97]) := by
  have h := claim_C3_string_cells 0 1 [97]
  exact ⟨h.1.1, (h.2.1 (by decide)).1, h.2.2.2.2⟩

/-- C1 counterexample: for a DECIMALV2 column with configured output
scale 3 and the logical value 1.5 (DecimalV2 representation
1500000000), the row-at-a-time path pushes the string "1.500" while
the vectorized path — whose output-scale code is commented out —
pushes "1.5": the two paths do not produce byte-identical output for
decimal columns with a configured output scale. -/
theorem claim_C1_counterexample :
    rowEncodeCell allPushesOk 3 .decimalv2 (some (.dec 1500000000)) =
      .ok (.bytes [49, 46, 53, 48, 48]) ∧
    vecEncodeCellT allPushesOk .decimalv2 (some (.dec 1500000000)) =
      .ok (.bytes [49, 46, 53]) ∧
    rowEncodeCell allPushesOk 3 .decimalv2 (some (.dec 1500000000)) ≠
      vecEncodeCellT allPushesOk .decimalv2 (some (.dec 1500000000)) := by
  refine ⟨?_, ?_, ?_⟩ <;> decide

/-- C1 (amended): for every column type supported by both paths (i.e.
with an `append_block` dispatch) and every well-typed cell, the two
writer paths produce the identical wire item — for every push-failure
oracle — except for DECIMALV2 columns when a valid output scale
(0 < scale ≤ 30) is configured, where the row path renders at that
scale and the vectorized path at the value's natural scale (the
counterexample). -/
theorem claim_C1_row_vec_equivalence_amended (pushOk : WireItem → Bool)
    (sc : Int) (ty : ColType) (t : VecType) (cell : Option CellVal) :
    vecDispatch ty = some t →
    wellTyped ty cell = true →
    (ty = .decimalv2 → ¬(0 < sc ∧ sc ≤ 30)) →
    rowEncodeCell pushOk sc ty cell = vecEncodeCellT pushOk t cell := by
  intro hd hw hdec
  cases cell with
  | none =>
    cases ty <;> simp only [vecDispatch, Option.some.injEq] at hd <;>
      first
        | exact Option.noConfusion hd
        | (subst hd; rfl)
  | some v =>
    cases ty <;> simp only [vecDispatch, Option.some.injEq] at hd <;>
      first
        | exact Option.noConfusion hd
        | (subst hd
           cases v <;>
             simp_all [rowEncodeCell, vecEncodeCellT, wellTyped, wellTypedV,
               rowStringBranch, vecStringBranch, scaleArg] <;>
             rw [if_neg (fun hc => by have := hdec hc.1; omega)])

/-- Witness for C1 (amended): a BIGINT cell and a DECIMALV2 cell with
an out-of-range configured scale encode identically on both paths. -/
theorem claim_C1_row_vec_equivalence_amended_witness :
    rowEncodeCell allPushesOk 0 .bigint (some (.i64 42))
      = vecEncodeCellT allPushesOk .bigint (some (.i64 42)) ∧
    rowEncodeCell allPushesOk 31 .decimalv2 (some (.dec 1500000000))
      = vecEncodeCellT allPushesOk .decimalv2 (some (.dec 1500000000)) := by
  have h1 := claim_C1_row_vec_equivalence_amended allPushesOk 0 .bigint .bigint
    (some (.i64 42)) (by decide) (by decide) (by intro h; cases h)
  have h2 := claim_C1_row_vec_equivalence_amended allPushesOk 31 .decimalv2 .decimalv2
    (some (.dec 1500000000)) (by decide) (by decide) (by intro _; decide)
  exact ⟨h1, h2⟩

theorem encodeRows_ok_iff (pushOk : WireItem → Bool) (cols : List ColSpec)
    (rows : List (List (Option CellVal))) :
    isOkE (encodeRows pushOk cols rows) = true ↔
      ∀ r ∈ rows, isOkE (addOneRow pushOk cols r) = true := by
  induction rows with
  | nil => simp [encodeRows, isOkE]
  | cons r rs ih =>
    constructor
    · intro h x hx
      simp only [encodeRows] at h
      cases h1 : addOneRow pushOk cols r with
      | error e => rw [h1] at h; simp [isOkE] at h
      | ok items =>
        rw [h1] at h
        cases h2 : encodeRows pushOk cols rs with
        | error e => rw [h2] at h; simp [isOkE] at h
        | ok rest =>
          rcases List.mem_cons.mp hx with hx' | hx'
          · subst hx'; simp [h1, isOkE]
          · exact (ih.mp (by simp [h2, isOkE])) x hx'
    · intro h
      simp only [encodeRows]
      have h1 : isOkE (addOneRow pushOk cols r) = true := h r (by simp)
      cases ha : addOneRow pushOk cols r with
      | error e => rw [ha] at h1; simp [isOkE] at h1
      | ok items =>
        have h2 : isOkE (encodeRows pushOk cols rs) = true :=
          ih.mpr (fun x hx => h x (by simp [hx]))
        cases hb : encodeRows pushOk cols rs with
        | error e => rw [hb] at h2; simp [isOkE] at h2
        | ok rest => simp [isOkE]

theorem addOneColumn_ok_iff (pushOk : WireItem → Bool) (t : VecType)
    (cells : List (Option CellVal)) :
    isOkE (addOneColumn pushOk t cells) = true ↔
      ∀ cell ∈ cells, isOkE (vecEncodeCellT pushOk t cell) = true := by
  induction cells with
  | nil => simp [addOneColumn, isOkE]
  | cons ccell rest ih =>
    constructor
    · intro h x hx
      simp only [addOneColumn] at h
      cases h1 : vecEncodeCellT pushOk t ccell with
      | error e => rw [h1] at h; simp [isOkE] at h
      | ok it =>
        rw [h1] at h
        cases h2 : addOneColumn pushOk t rest with
        | error e => rw [h2] at h; simp [isOkE] at h
        | ok its =>
          rcases List.mem_cons.mp hx with hx' | hx'
          · subst hx'; simp [h1, isOkE]
          · exact (ih.mp (by simp [h2, isOkE])) x hx'
    · intro h
      simp only [addOneColumn]
      have h1 : isOkE (vecEncodeCellT pushOk t ccell) = true := h ccell (by simp)
      cases ha : vecEncodeCellT pushOk t ccell with
      | error e => rw [ha] at h1; simp [isOkE] at h1
      | ok it =>
        have h2 : isOkE (addOneColumn pushOk t rest) = true :=
          ih.mpr (fun x hx => h x (by simp [hx]))
        cases hb : addOneColumn pushOk t rest with
        | error e => rw [hb] at h2; simp [isOkE] at h2
        | ok its => simp [isOkE]

theorem appendBlockCols_ok (pushOk : WireItem → Bool) :
    ∀ (colsL : List (ColType × List (Option CellVal))) (acc b : List (List WireItem)),
    appendBlockCols pushOk colsL acc = .ok b →
    ∀ c ∈ colsL, ∃ t, vecDispatch c.1 = some t ∧
      isOkE (addOneColumn pushOk t c.2) = true := by
  intro colsL
  induction colsL with
  | nil => intro acc b _ c hc; simp at hc
  | cons col rest ih =>
    intro acc b h c hc
    obtain ⟨ty, cells⟩ := col
    simp only [appendBlockCols] at h
    split at h
    · exact absurd h (by simp)
    · rename_i t hd
      split at h
      · exact absurd h (by simp)
      · rename_i items hcol
        rcases List.mem_cons.mp hc with hc' | hc'
        · subst hc'; exact ⟨t, hd, by simp [hcol, isOkE]⟩
        · exact ih _ _ h c hc'

theorem appendBlockCols_not_ok (pushOk : WireItem → Bool)
    (colsL : List (ColType × List (Option CellVal))) (acc : List (List WireItem))
    (hbad : ∃ c ∈ colsL, ¬∃ t, vecDispatch c.1 = some t ∧
      isOkE (addOneColumn pushOk t c.2) = true) :
    isOkE (appendBlockCols pushOk colsL acc) = false := by
  obtain ⟨c, hc, hb⟩ := hbad
  cases hres : appendBlockCols pushOk colsL acc with
  | error e => simp [isOkE]
  | ok b => exact absurd (appendBlockCols_ok pushOk colsL acc b hres c hc) hb

/-- C2: in the row-at-a-time path, if any row fails to encode (a push
returns non-zero or a type has no encoding rule) then `append_row_batch`
returns an error and hands nothing to the sink, and the sink receives a
batch only when every row encoded successfully (the batch then being
exactly the encoded rows); likewise in the vectorized path for
`append_block` (for nonempty blocks; a zero-row block returns OK before
any type is even resolved), where a batch reaching the sink means every
column dispatched and every cell of every column encoded successfully. -/
theorem claim_C2_error_aborts_batch :
    (∀ (pushOk : WireItem → Bool) (sink : List (List WireItem) → Except String Unit)
        (cols : List ColSpec) (rows : List (List (Option CellVal))),
      ((∃ r ∈ rows, isOkE (addOneRow pushOk cols r) = false) →
        isOkE (appendRowBatch pushOk sink cols rows).1 = false ∧
        (appendRowBatch pushOk sink cols rows).2 = none) ∧
      (∀ b, (appendRowBatch pushOk sink cols rows).2 = some b →
        (∀ r ∈ rows, isOkE (addOneRow pushOk cols r) = true) ∧
        encodeRows pushOk cols rows = .ok b) ∧
      (∀ b, rows ≠ [] → encodeRows pushOk cols rows = .ok b →
        (appendRowBatch pushOk sink cols rows).2 = some b)) ∧
    (∀ (pushOk : WireItem → Bool) (sink : List (List WireItem) → Except String Unit)
        (blk : VecBlock),
      (blk.nrows ≠ 0 →
        (∃ c ∈ blk.cols, ¬∃ t, vecDispatch c.1 = some t ∧
          isOkE (addOneColumn pushOk t c.2) = true) →
        isOkE (appendBlock pushOk sink blk).1 = false ∧
        (appendBlock pushOk sink blk).2 = none) ∧
      (∀ b, (appendBlock pushOk sink blk).2 = some b →
        ∀ c ∈ blk.cols, ∃ t, vecDispatch c.1 = some t ∧
          ∀ cell ∈ c.2, isOkE (vecEncodeCellT pushOk t cell) = true) ∧
      (∀ b, blk.nrows ≠ 0 →
        appendBlockCols pushOk blk.cols (List.replicate blk.nrows []) = .ok b →
        (appendBlock pushOk sink blk).2 = some b)) := by
  constructor
  · intro pushOk sink cols rows
    refine ⟨?_, ?_, ?_⟩
    · rintro ⟨r, hr, hfail⟩
      have hne : rows ≠ [] := by rintro rfl; simp at hr
      unfold appendRowBatch
      rw [if_neg hne]
      cases hres : encodeRows pushOk cols rows with
      | error e => simp [isOkE]
      | ok b =>
        exfalso
        have := (encodeRows_ok_iff pushOk cols rows).mp (by simp [hres, isOkE]) r hr
        rw [this] at hfail
        cases hfail
    · intro b hb
      unfold appendRowBatch at hb
      split at hb
      · simp at hb
      · split at hb
        · simp at hb
        · rename_i batch hres
          have hall := (encodeRows_ok_iff pushOk cols rows).mp (by simp [hres, isOkE])
          split at hb <;> (simp at hb; subst hb; exact ⟨hall, hres⟩)
    · intro b hne hres
      unfold appendRowBatch
      rw [if_neg hne, hres]
      cases hs : sink b <;> simp [hs]
  · intro pushOk sink blk
    refine ⟨?_, ?_, ?_⟩
    · intro hn hbad
      have hcols := appendBlockCols_not_ok pushOk blk.cols
        (List.replicate blk.nrows []) hbad
      unfold appendBlock
      rw [if_neg hn]
      cases hres : appendBlockCols pushOk blk.cols (List.replicate blk.nrows []) with
      | error e => simp [isOkE]
      | ok b => rw [hres] at hcols; simp [isOkE] at hcols
    · intro b hb c hc
      unfold appendBlock at hb
      split at hb
      · simp at hb
      · split at hb
        · simp at hb
        · rename_i batch hres
          obtain ⟨t, hd, hok⟩ := appendBlockCols_ok pushOk blk.cols _ batch hres c hc
          exact ⟨t, hd, (addOneColumn_ok_iff pushOk t c.2).mp hok⟩
    · intro b hn hres
      unfold appendBlock
      rw [if_neg hn, hres]
      cases hs : sink b <;> simp [hs]

/-- Witness for C2: a failing row batch (unsupported type) aborts with
nothing handed to the sink; a successful one-cell batch reaches the
sink; the vectorized analogues behave the same (TYPE_TIME has no
vectorized encoding rule). -/
theorem claim_C2_error_aborts_batch_witness :
    isOkE (appendRowBatch allPushesOk (fun _ => .ok ()) [⟨.other, 0⟩]
      [[some .obj]]).1 = false ∧
    (appendRowBatch allPushesOk (fun _ => .ok ()) [⟨.other, 0⟩]
      [[some .obj]]).2 = none ∧
    ((appendRowBatch allPushesOk (fun _ => .ok ()) [⟨.int, 0⟩]
      [[some (.i32 5)]]).2 = some [[.int32 5]] →
      ∀ r ∈ [[some (CellVal.i32 5)]],
        isOkE (addOneRow allPushesOk [⟨.int, 0⟩] r) = true) ∧
    (appendRowBatch allPushesOk (fun _ => .ok ()) [⟨.int, 0⟩]
      [[some (.i32 5)]]).2 = some [[.int32 5]] ∧
    isOkE (appendBlock allPushesOk (fun _ => .ok ())
      ⟨1, [(.time, [some (.f64 0)])]⟩).1 = false ∧
    (appendBlock allPushesOk (fun _ => .ok ())
      ⟨1, [(.time, [some (.f64 0)])]⟩).2 = none := by
  have h1 := (claim_C2_error_aborts_batch.1 allPushesOk (fun _ => .ok ())
    [⟨.other, 0⟩] [[some .obj]]).1 (by decide)
  have h2 := (claim_C2_error_aborts_batch.1 allPushesOk (fun _ => .ok ())
    [⟨.int, 0⟩] [[some (.i32 5)]]).2.1 [[.int32 5]]
  have h4 := (claim_C2_error_aborts_batch.1 allPushesOk (fun _ => .ok ())
    [⟨.int, 0⟩] [[some (.i32 5)]]).2.2 [[.int32 5]] (by decide) (by decide)
  have h3 := (claim_C2_error_aborts_batch.2 allPushesOk (fun _ => .ok ())
    ⟨1, [(.time, [some (.f64 0)])]⟩).1 (by decide) (by decide)
  exact ⟨h1.1, h1.2, fun hb => (h2 hb).1, h4, h3.1, h3.2⟩

end DorisVec
